import Mathlib

/-!
Shallow embedding of the qemuweb sidecar core (packages/sidecar/src):
frame formats and metadata (protocol.rs), frame construction and pixel
format conversion (frame.rs), the frame ring buffer (frame.rs), and the
message dispatch of process_message (server.rs).

Machine integers of the source (u8, u16, u32, u64, usize) are modelled as
Nat; none of the embedded arithmetic can overflow its Rust type under the
byte-validity hypotheses stated where relevant.  The f64 timestamps are
never computed with in the embedded code (they are only moved), so they
are modelled as rationals.  Byte vectors are lists of Nat, with the
hypothesis that every entry is below 256 where a claim needs it.
-/

namespace Qemuweb

/-- Pixel format enum, from protocol.rs FrameFormat. -/
inductive FrameFormat : Type
  | Rgba
  | Rgb565
  | Yuv420
  | Compressed
deriving DecidableEq, Repr

/-- Bytes per pixel for uncompressed formats, from protocol.rs
FrameFormat::bytes_per_pixel: Rgba 4, Rgb565 2, variable formats None. -/
def FrameFormat.bytes_per_pixel : FrameFormat → Option Nat
  | .Rgba => some 4
  | .Rgb565 => some 2
  | .Yuv420 => none
  | .Compressed => none

/-- Frame metadata, from protocol.rs FrameMetadata. -/
structure FrameMetadata : Type where
  sequence : Nat
  timestamp : ℚ
  width : Nat
  height : Nat
  format : FrameFormat
  keyframe : Bool
deriving DecidableEq, Repr

/-- Frame errors, from frame.rs FrameError. -/
inductive FrameError : Type
  | InvalidDimensions (width height : Nat)
  | SizeMismatch (expected actual : Nat)
  | UnsupportedConversion (fromFmt toFmt : FrameFormat)
  | CompressionError (msg : String)
deriving DecidableEq, Repr

/-- Frame data container, from frame.rs Frame. -/
structure Frame : Type where
  metadata : FrameMetadata
  data : List Nat
deriving DecidableEq, Repr

namespace Frame

/-- Expected buffer size for metadata, from frame.rs Frame::expected_size:
width * height pixels times bytes per pixel, when the format has a fixed
bytes-per-pixel. -/
def expected_size (metadata : FrameMetadata) : Option Nat :=
  (metadata.format.bytes_per_pixel).map
    (fun bpp => metadata.width * metadata.height * bpp)

/-- Frame construction, from frame.rs Frame::new: when the format has a
fixed bytes-per-pixel, a payload whose length differs from the expected
size is rejected with SizeMismatch; otherwise the frame is built as given. -/
def new (metadata : FrameMetadata) (data : List Nat) : Except FrameError Frame :=
  match expected_size metadata with
  | some expected =>
      if data.length ≠ expected then
        .error (.SizeMismatch expected data.length)
      else
        .ok ⟨metadata, data⟩
  | none => .ok ⟨metadata, data⟩

/-- RGBA to RGB565 conversion, from frame.rs Frame::rgba_to_rgb565: the
byte stream is consumed in exact chunks of four (chunks_exact(4), any
remainder dropped); each pixel r, g, b, alpha is packed as
((r >>> 3) <<< 11) ||| ((g >>> 2) <<< 5) ||| (b >>> 3) and appended as a
16-bit little-endian word (low byte first); alpha is discarded. -/
def rgba_to_rgb565 : List Nat → List Nat
  | r :: g :: b :: _a :: rest =>
      let word : Nat := ((r >>> 3) <<< 11) ||| ((g >>> 2) <<< 5) ||| (b >>> 3)
      word % 256 :: word / 256 :: rgba_to_rgb565 rest
  | _ => []

/-- RGB565 to RGBA conversion, from frame.rs Frame::rgb565_to_rgba: the
byte stream is consumed in exact chunks of two; the little-endian 16-bit
word is split into 5/6/5 fields, each widened to 8 bits by replicating
its top bits into the low bits, and alpha is emitted as 255. -/
def rgb565_to_rgba : List Nat → List Nat
  | b0 :: b1 :: rest =>
      let word : Nat := b0 + 256 * b1
      let r : Nat := (word >>> 11) &&& 0x1F
      let g : Nat := (word >>> 5) &&& 0x3F
      let b : Nat := word &&& 0x1F
      ((r <<< 3) ||| (r >>> 2)) :: ((g <<< 2) ||| (g >>> 4)) ::
        ((b <<< 3) ||| (b >>> 2)) :: 255 :: rgb565_to_rgba rest
  | _ => []

/-- Format conversion, from frame.rs Frame::convert: identical source and
target formats return a clone; Rgba to Rgb565 and Rgb565 to Rgba run the
pixel converters and rebuild the frame through Frame::new with the target
format; every other pair fails with UnsupportedConversion. -/
def convert (f : Frame) (target_format : FrameFormat) : Except FrameError Frame :=
  if f.metadata.format = target_format then
    .ok f
  else
    match f.metadata.format, target_format with
    | .Rgba, .Rgb565 =>
        Frame.new { f.metadata with format := target_format } (rgba_to_rgb565 f.data)
    | .Rgb565, .Rgba =>
        Frame.new { f.metadata with format := target_format } (rgb565_to_rgba f.data)
    | fromFmt, toFmt =>
        .error (.UnsupportedConversion fromFmt toFmt)

end Frame

/-- Ring buffer for frame management, from frame.rs FrameBuffer: a vector
of capacity optional slots with a write index and a read index. -/
structure FrameBuffer : Type where
  frames : List (Option Frame)
  write_index : Nat
  read_index : Nat
  capacity : Nat

namespace FrameBuffer

/-- Buffer creation, from frame.rs FrameBuffer::new: capacity slots, all
None, both indices zero. -/
def new (capacity : Nat) : FrameBuffer :=
  ⟨List.replicate capacity none, 0, 0, capacity⟩

/-- Push, from frame.rs FrameBuffer::push: write the frame at the write
index, advance the write index mod capacity; if it now equals the read
index and the slot just written is occupied, advance the read index too
(a frame is dropped) and return false, else return true.  The returned
pair is the updated buffer and push's boolean result. -/
def push (buf : FrameBuffer) (frame : Frame) : FrameBuffer × Bool :=
  let frames := buf.frames.set buf.write_index (some frame)
  let prev_write := buf.write_index
  let write_index := (buf.write_index + 1) % buf.capacity
  if write_index = buf.read_index ∧ (frames.getD prev_write none).isSome then
    (⟨frames, write_index, (buf.read_index + 1) % buf.capacity, buf.capacity⟩, false)
  else
    (⟨frames, write_index, buf.read_index, buf.capacity⟩, true)

/-- Pop, from frame.rs FrameBuffer::pop: None when the read index equals
the write index, else take the frame at the read index (leaving None) and
advance the read index mod capacity.  The returned pair is the updated
buffer and pop's result. -/
def pop (buf : FrameBuffer) : FrameBuffer × Option Frame :=
  if buf.read_index = buf.write_index then
    (buf, none)
  else
    (⟨buf.frames.set buf.read_index none,
      buf.write_index,
      (buf.read_index + 1) % buf.capacity,
      buf.capacity⟩,
     buf.frames.getD buf.read_index none)

/-- Emptiness test, from frame.rs FrameBuffer::is_empty. -/
def isEmpty (buf : FrameBuffer) : Bool :=
  buf.read_index = buf.write_index

/-- Occupancy, from frame.rs FrameBuffer::len: write minus read when
write is at least read, else capacity minus read plus write. -/
def len (buf : FrameBuffer) : Nat :=
  if buf.read_index ≤ buf.write_index then
    buf.write_index - buf.read_index
  else
    buf.capacity - buf.read_index + buf.write_index

end FrameBuffer

/-- Sidecar operating mode, from protocol.rs SidecarMode. -/
inductive SidecarMode : Type
  | Local
  | Remote
  | Disabled
deriving DecidableEq, Repr

/-- Sidecar configuration, from protocol.rs SidecarConfig (the fields the
dispatch handler reads). -/
structure SidecarConfig : Type where
  mode : SidecarMode
  target_fps : Option Nat
  preferred_format : Option FrameFormat
  remote_url : Option String
  enable_compression : Option Bool
  ring_buffer_size : Option Nat
deriving DecidableEq, Repr

/-- Client-to-server messages, from protocol.rs EmulatorToSidecarMessage. -/
inductive EmulatorToSidecarMessage : Type
  | SetMode (mode : SidecarMode) (config : Option SidecarConfig)
  | SetFormat (format : FrameFormat) (width height : Nat)
  | FrameMsg (metadata : FrameMetadata)
  | Ping (timestamp : ℚ)
deriving DecidableEq, Repr

/-- Server-to-client messages, from protocol.rs SidecarToEmulatorMessage. -/
inductive SidecarToEmulatorMessage : Type
  | ModeAck (mode : SidecarMode) (success : Bool) (error : Option String)
  | FormatAck (format : FrameFormat) (success : Bool)
  | FrameAck (sequence : Nat) (latency : ℚ)
  | Pong (timestamp : ℚ) (server_time : ℚ)
  | ErrorMsg (code message : String)
deriving DecidableEq, Repr

/-- Response computation of server.rs process_message, with the wall
clock passed explicitly: the source reads SystemTime::now at dispatch
time and converts it to milliseconds; here that value arrives as the
parameter now.  Ping answers Pong with the incoming timestamp moved
verbatim and server_time set to now; SetMode answers ModeAck with
success true and no error; SetFormat answers FormatAck with success
true; Frame produces no response. -/
def process_response (now : ℚ) :
    EmulatorToSidecarMessage → Option SidecarToEmulatorMessage
  | .Ping timestamp => some (.Pong timestamp now)
  | .SetMode mode _config => some (.ModeAck mode true none)
  | .SetFormat format _width _height => some (.FormatAck format true)
  | .FrameMsg _metadata => none

/-- Send step of server.rs process_message: the response, when there is
one, is sent to the dispatching client exactly once, and only if that
client is still registered in the server state; the list of messages
written to the client's channel is returned. -/
def process_sent (registered : Bool) (now : ℚ)
    (msg : EmulatorToSidecarMessage) : List SidecarToEmulatorMessage :=
  match process_response now msg with
  | some resp => if registered then [resp] else []
  | none => []

/-- A 2x2 Rgba frame carrying the given sequence number, used to drive
the ring buffer scenarios. -/
def seqFrame (n : Nat) : Frame := ⟨⟨n, 0, 2, 2, .Rgba, true⟩, List.replicate 16 0⟩

/-- An operation on the ring buffer: a push of a frame, or a pop. -/
inductive BufOp : Type
  | pushOp (f : Frame)
  | popOp

/-- A run of ring buffer operations carrying its accounting: the buffer
plus the number of pushes performed, the number of pops that returned a
frame, and the number of pushes that reported a drop (returned false). -/
structure RunState : Type where
  buf : FrameBuffer
  pushes : Nat
  pops : Nat
  drops : Nat

/-- One accounting step: apply the operation to the buffer and bump the
corresponding counters. -/
def stepStats (s : RunState) : BufOp → RunState
  | .pushOp f =>
      let res := s.buf.push f
      ⟨res.1, s.pushes + 1, s.pops, cond res.2 s.drops (s.drops + 1)⟩
  | .popOp =>
      let res := s.buf.pop
      ⟨res.1, s.pushes, cond res.2.isSome (s.pops + 1) s.pops, s.drops⟩

/-- Run a list of operations from a fresh buffer of the given capacity. -/
def runStats (c : Nat) (ops : List BufOp) : RunState :=
  ops.foldl stepStats ⟨FrameBuffer.new c, 0, 0, 0⟩

/-- Membership of index i in the circular half-open range from the read
index (inclusive) to the write index (exclusive) in a buffer of capacity
c; the empty range when the indices coincide. -/
def inCirc (c r w i : Nat) : Prop :=
  (r ≤ i ∧ i < w) ∨ (w < r ∧ (i < w ∨ (r ≤ i ∧ i < c)))

/-- Invariant of reachable ring buffer runs at capacity C: the capacity
field and slot count equal C, both cursors are below C, every slot in
the circular read-to-write range is occupied, and the occupancy plus the
successful pops plus the drops equals the pushes. -/
def BufInv (C : Nat) (s : RunState) : Prop :=
  s.buf.capacity = C ∧
  s.buf.frames.length = C ∧
  s.buf.read_index < C ∧
  s.buf.write_index < C ∧
  (∀ i, inCirc C s.buf.read_index s.buf.write_index i →
      (s.buf.frames.getD i none).isSome = true) ∧
  s.buf.len + s.pops + s.drops = s.pushes

/-- getD after set at the same, in-range position yields the new value. -/
lemma getD_set_self {α : Type} :
    ∀ (l : List α) (i : Nat) (a d : α), i < l.length →
      (l.set i a).getD i d = a := by
  intro l
  induction l with
  | nil => intro i a d h; simp at h
  | cons x xs ih =>
      intro i a d h
      cases i with
      | zero => rfl
      | succ j =>
          simp only [List.set_cons_succ, List.getD_cons_succ]
          exact ih j a d (by simpa using Nat.lt_of_succ_lt_succ h)

/-- getD after set at a different position is unchanged. -/
lemma getD_set_ne {α : Type} :
    ∀ (l : List α) (i j : Nat) (a d : α), i ≠ j →
      (l.set i a).getD j d = l.getD j d := by
  intro l
  induction l with
  | nil => intro i j a d _; simp [List.set]
  | cons x xs ih =>
      intro i j a d hne
      cases i with
      | zero =>
          cases j with
          | zero => exact absurd rfl hne
          | succ k => simp only [List.set_cons_zero, List.getD_cons_succ]
      | succ i0 =>
          cases j with
          | zero => rfl
          | succ k =>
              simp only [List.set_cons_succ, List.getD_cons_succ]
              exact ih i0 k a d (fun h => hne (by rw [h]))

/-- The len of an explicitly given buffer, unfolded. -/
lemma len_mk (fs : List (Option Frame)) (w r c : Nat) :
    FrameBuffer.len ⟨fs, w, r, c⟩ = if r ≤ w then w - r else c - r + w := rfl

/-- Occupancy is bounded by the capacity when both cursors are. -/
lemma len_le (buf : FrameBuffer) (hr : buf.read_index < buf.capacity)
    (hw : buf.write_index < buf.capacity) : buf.len ≤ buf.capacity := by
  unfold FrameBuffer.len
  split <;> omega

/-- Occupancy equals write minus read, modulo the capacity, when both
cursors are below the capacity. -/
lemma len_mod (buf : FrameBuffer) (hr : buf.read_index < buf.capacity)
    (hw : buf.write_index < buf.capacity) :
    buf.len =
      (buf.capacity + buf.write_index - buf.read_index) % buf.capacity := by
  unfold FrameBuffer.len
  split_ifs with h
  · have e : buf.capacity + buf.write_index - buf.read_index =
        buf.capacity + (buf.write_index - buf.read_index) := by omega
    rw [e, Nat.add_mod_left, Nat.mod_eq_of_lt (by omega)]
  · rw [Nat.mod_eq_of_lt (by omega)]
    omega

/-- The successor of a cursor below C either stays below C unreduced by
the modulus, or wraps exactly to zero. -/
lemma mod_succ_cases (w C : Nat) (hw : w < C) :
    ((w + 1) % C = w + 1 ∧ w + 1 < C) ∨ ((w + 1) % C = 0 ∧ w + 1 = C) := by
  rcases Nat.lt_or_ge (w + 1) C with h | h
  · exact Or.inl ⟨Nat.mod_eq_of_lt h, h⟩
  · have e : w + 1 = C := by omega
    exact Or.inr ⟨by rw [e, Nat.mod_self], e⟩

/-- Push of an explicitly given buffer, unfolded. -/
lemma push_eq (fs : List (Option Frame)) (w r c : Nat) (f : Frame) :
    FrameBuffer.push ⟨fs, w, r, c⟩ f =
      if (w + 1) % c = r ∧ ((fs.set w (some f)).getD w none).isSome then
        (⟨fs.set w (some f), (w + 1) % c, (r + 1) % c, c⟩, false)
      else
        (⟨fs.set w (some f), (w + 1) % c, r, c⟩, true) := rfl

/-- Pop of an explicitly given buffer, unfolded. -/
lemma pop_eq (fs : List (Option Frame)) (w r c : Nat) :
    FrameBuffer.pop ⟨fs, w, r, c⟩ =
      if r = w then (⟨fs, w, r, c⟩, none)
      else (⟨fs.set r none, w, (r + 1) % c, c⟩, fs.getD r none) := rfl

/-- A push preserves the run invariant. -/
lemma push_preserves (C : Nat) (hC : 0 < C) (s : RunState) (f : Frame)
    (h : BufInv C s) : BufInv C (stepStats s (.pushOp f)) := by
  obtain ⟨⟨fs, w, r, cap⟩, pu, po, dr⟩ := s
  obtain ⟨hcap, hlen, hr, hw, hslots, hacc⟩ := h
  dsimp only at hcap hlen hr hw hslots hacc
  subst hcap
  have hself : (fs.set w (some f)).getD w none = some f :=
    getD_set_self fs w (some f) none (by omega)
  have hwm := mod_succ_cases w cap hw
  have hrm := mod_succ_cases r cap hr
  simp only [stepStats]
  rw [push_eq]
  by_cases hwrap : (w + 1) % cap = r
  · rw [if_pos ⟨hwrap, by rw [hself]; rfl⟩]
    show BufInv cap
      ⟨⟨fs.set w (some f), (w + 1) % cap, (r + 1) % cap, cap⟩,
        pu + 1, po, dr + 1⟩
    unfold BufInv
    refine ⟨rfl, ?_, ?_, ?_, ?_, ?_⟩
    · show (fs.set w (some f)).length = cap
      simpa using hlen
    · show (r + 1) % cap < cap
      exact Nat.mod_lt _ hC
    · show (w + 1) % cap < cap
      exact Nat.mod_lt _ hC
    · show ∀ i, inCirc cap ((r + 1) % cap) ((w + 1) % cap) i →
        ((fs.set w (some f)).getD i none).isSome = true
      intro i hi
      by_cases hiw : i = w
      · subst hiw
        rw [hself]
        rfl
      · rw [getD_set_ne fs w i (some f) none (fun e => hiw e.symm)]
        apply hslots
        unfold inCirc at hi ⊢
        omega
    · show FrameBuffer.len
          ⟨fs.set w (some f), (w + 1) % cap, (r + 1) % cap, cap⟩ +
          po + (dr + 1) = pu + 1
      rw [len_mk] at hacc ⊢
      split_ifs at hacc ⊢ <;> omega
  · rw [if_neg (fun hc => hwrap hc.1)]
    show BufInv cap
      ⟨⟨fs.set w (some f), (w + 1) % cap, r, cap⟩, pu + 1, po, dr⟩
    unfold BufInv
    refine ⟨rfl, ?_, ?_, ?_, ?_, ?_⟩
    · show (fs.set w (some f)).length = cap
      simpa using hlen
    · show r < cap
      exact hr
    · show (w + 1) % cap < cap
      exact Nat.mod_lt _ hC
    · show ∀ i, inCirc cap r ((w + 1) % cap) i →
        ((fs.set w (some f)).getD i none).isSome = true
      intro i hi
      by_cases hiw : i = w
      · subst hiw
        rw [hself]
        rfl
      · rw [getD_set_ne fs w i (some f) none (fun e => hiw e.symm)]
        apply hslots
        unfold inCirc at hi ⊢
        omega
    · show FrameBuffer.len ⟨fs.set w (some f), (w + 1) % cap, r, cap⟩ +
          po + dr = pu + 1
      rw [len_mk] at hacc ⊢
      split_ifs at hacc ⊢ <;> omega

/-- A pop preserves the run invariant. -/
lemma pop_preserves (C : Nat) (hC : 0 < C) (s : RunState)
    (h : BufInv C s) : BufInv C (stepStats s .popOp) := by
  obtain ⟨⟨fs, w, r, cap⟩, pu, po, dr⟩ := s
  obtain ⟨hcap, hlen, hr, hw, hslots, hacc⟩ := h
  dsimp only at hcap hlen hr hw hslots hacc
  subst hcap
  have hrm := mod_succ_cases r cap hr
  simp only [stepStats]
  rw [pop_eq]
  by_cases hrw : r = w
  · rw [if_pos hrw]
    exact ⟨rfl, hlen, hr, hw, hslots, hacc⟩
  · have hrin : inCirc cap r w r := by unfold inCirc; omega
    have hsome : (fs.getD r none).isSome = true := hslots r hrin
    rw [if_neg hrw]
    show BufInv cap
      ⟨⟨fs.set r none, w, (r + 1) % cap, cap⟩, pu,
        cond (fs.getD r none).isSome (po + 1) po, dr⟩
    rw [hsome]
    show BufInv cap
      ⟨⟨fs.set r none, w, (r + 1) % cap, cap⟩, pu, po + 1, dr⟩
    unfold BufInv
    refine ⟨rfl, ?_, ?_, ?_, ?_, ?_⟩
    · show (fs.set r none).length = cap
      simpa using hlen
    · show (r + 1) % cap < cap
      exact Nat.mod_lt _ hC
    · show w < cap
      exact hw
    · show ∀ i, inCirc cap ((r + 1) % cap) w i →
        ((fs.set r none).getD i none).isSome = true
      intro i hi
      have hir : i ≠ r := by
        unfold inCirc at hi
        omega
      rw [getD_set_ne fs r i none none (fun e => hir e.symm)]
      apply hslots
      unfold inCirc at hi ⊢
      omega
    · show FrameBuffer.len ⟨fs.set r none, w, (r + 1) % cap, cap⟩ +
          (po + 1) + dr = pu
      rw [len_mk] at hacc ⊢
      split_ifs at hacc ⊢ <;> omega

/-- Every operation list preserves the run invariant under foldl. -/
lemma foldl_preserves (C : Nat) (hC : 0 < C) :
    ∀ (ops : List BufOp) (s : RunState), BufInv C s →
      BufInv C (ops.foldl stepStats s) := by
  intro ops
  induction ops with
  | nil => intro s h; exact h
  | cons op rest ih =>
      intro s h
      apply ih
      cases op with
      | pushOp f => exact push_preserves C hC s f h
      | popOp => exact pop_preserves C hC s h

/-- The fresh buffer run state satisfies the invariant. -/
lemma init_inv (C : Nat) (hC : 0 < C) :
    BufInv C ⟨FrameBuffer.new C, 0, 0, 0⟩ := by
  unfold BufInv FrameBuffer.new
  refine ⟨rfl, ?_, hC, hC, ?_, ?_⟩
  · show (List.replicate C (none : Option Frame)).length = C
    simp
  · show ∀ i, inCirc C 0 0 i →
      ((List.replicate C (none : Option Frame)).getD i none).isSome = true
    intro i hi
    unfold inCirc at hi
    omega
  · rfl

/-- Claim C3: for every capacity C at least 1 and every sequence of push
and pop operations, the occupancy len() stays at most C, len() equals
(write - read) mod C which lies in the interval from 0 up to but not
including C, and len() equals the pushes minus the frames popped minus
the frames evicted (the accounting identity, stated addition-side). -/
theorem claim_C3 (C : Nat) (hC : 1 ≤ C) (ops : List BufOp) :
    (runStats C ops).buf.len ≤ C ∧
    (runStats C ops).buf.len =
      (C + (runStats C ops).buf.write_index -
        (runStats C ops).buf.read_index) % C ∧
    (C + (runStats C ops).buf.write_index -
        (runStats C ops).buf.read_index) % C < C ∧
    (runStats C ops).buf.len + (runStats C ops).pops +
        (runStats C ops).drops = (runStats C ops).pushes := by
  unfold runStats
  have h := foldl_preserves C hC ops ⟨FrameBuffer.new C, 0, 0, 0⟩
    (init_inv C hC)
  obtain ⟨hcap, hlen, hr, hw, hslots, hacc⟩ := h
  have hl := len_le (ops.foldl stepStats ⟨FrameBuffer.new C, 0, 0, 0⟩).buf
    (by rw [hcap]; exact hr) (by rw [hcap]; exact hw)
  have hm := len_mod (ops.foldl stepStats ⟨FrameBuffer.new C, 0, 0, 0⟩).buf
    (by rw [hcap]; exact hr) (by rw [hcap]; exact hw)
  rw [hcap] at hl hm
  exact ⟨hl, hm, Nat.mod_lt _ hC, hacc⟩

/-- Witness for claim C3 at capacity 2 with two pushes and a pop. -/
theorem claim_C3_witness :
    (1 ≤ 2) ∧
    ((runStats 2 [.pushOp (seqFrame 0), .pushOp (seqFrame 1), .popOp]).buf.len
        ≤ 2 ∧
      (runStats 2 [.pushOp (seqFrame 0), .pushOp (seqFrame 1),
          .popOp]).buf.len =
        (2 + (runStats 2 [.pushOp (seqFrame 0), .pushOp (seqFrame 1),
            .popOp]).buf.write_index -
          (runStats 2 [.pushOp (seqFrame 0), .pushOp (seqFrame 1),
            .popOp]).buf.read_index) % 2 ∧
      (2 + (runStats 2 [.pushOp (seqFrame 0), .pushOp (seqFrame 1),
          .popOp]).buf.write_index -
        (runStats 2 [.pushOp (seqFrame 0), .pushOp (seqFrame 1),
          .popOp]).buf.read_index) % 2 < 2 ∧
      (runStats 2 [.pushOp (seqFrame 0), .pushOp (seqFrame 1),
          .popOp]).buf.len +
        (runStats 2 [.pushOp (seqFrame 0), .pushOp (seqFrame 1),
          .popOp]).pops +
        (runStats 2 [.pushOp (seqFrame 0), .pushOp (seqFrame 1),
          .popOp]).drops =
        (runStats 2 [.pushOp (seqFrame 0), .pushOp (seqFrame 1),
          .popOp]).pushes) :=
  ⟨by decide,
   claim_C3 2 (by decide) [.pushOp (seqFrame 0), .pushOp (seqFrame 1), .popOp]⟩

/-- Recognizer for the InvalidDimensions error of a construction result. -/
def isInvalidDimensionsError : Except FrameError Frame → Bool
  | .error (.InvalidDimensions _ _) => true
  | _ => false

/-- Sample 2x2 Rgba metadata, matching the repository test fixture. -/
def rgbaMeta22 : FrameMetadata := ⟨0, 0, 2, 2, .Rgba, true⟩

/-- Sample 2x2 Rgba frame whose 16 payload bytes are all 255. -/
def whiteRgba : Frame := ⟨rgbaMeta22, List.replicate 16 255⟩

/-- Sample frame in the Yuv420 format. -/
def yuvSample : Frame := ⟨⟨3, 0, 2, 2, .Yuv420, false⟩, [1, 2, 3]⟩

/-- Sample frame in the Compressed format. -/
def compressedSample : Frame := ⟨⟨4, 0, 8, 8, .Compressed, true⟩, [9, 9]⟩

/-- Sample 1x1 Rgb565 frame, little-endian word 31 (pure blue field). -/
def rgb565Sample : Frame := ⟨⟨0, 0, 1, 1, .Rgb565, false⟩, [31, 0]⟩

/-- Yuv420 metadata with nonzero dimensions. -/
def yuvMeta79 : FrameMetadata := ⟨0, 0, 7, 9, .Yuv420, false⟩

/-- Rgba metadata with zero width. -/
def zeroRgbaMeta : FrameMetadata := ⟨0, 0, 0, 5, .Rgba, true⟩

/-- The packed 5-6-5 word of a pixel, as the spec words it: pack as
(R >>> 3) <<< 11 ||| (G >>> 2) <<< 5 ||| (B >>> 3). -/
def rgb565Word (r g b : Nat) : Nat :=
  ((r >>> 3) <<< 11) ||| ((g >>> 2) <<< 5) ||| (b >>> 3)

/-- The getD of a list all of whose entries are below a bound stays below
that bound when the default does. -/
lemma getD_lt_of_forall {m : Nat} :
    ∀ (l : List Nat) (i : Nat) (d : Nat),
      (∀ x ∈ l, x < m) → d < m → l.getD i d < m := by
  intro l
  induction l with
  | nil => intro i d _ hd; simp [hd]
  | cons x xs ih =>
      intro i d hall hd
      cases i with
      | zero => simpa using hall x (by simp)
      | succ j =>
          rw [List.getD_cons_succ]
          exact ih j d (fun y hy => hall y (by simp [hy])) hd

/-- The packed word of byte-valued components fits in 16 bits. -/
lemma rgb565Word_lt (r g b : Nat) (hr : r < 256) (hg : g < 256)
    (hb : b < 256) : rgb565Word r g b < 2 ^ 16 := by
  unfold rgb565Word
  have e2 : (2 : Nat) ^ 2 = 4 := by norm_num
  have e3 : (2 : Nat) ^ 3 = 8 := by norm_num
  have e5 : (2 : Nat) ^ 5 = 32 := by norm_num
  have e11 : (2 : Nat) ^ 11 = 2048 := by norm_num
  have e16 : (2 : Nat) ^ 16 = 65536 := by norm_num
  have h1 : (r >>> 3) <<< 11 < 2 ^ 16 := by
    rw [Nat.shiftRight_eq_div_pow, Nat.shiftLeft_eq, e3, e11, e16]
    omega
  have h2 : (g >>> 2) <<< 5 < 2 ^ 16 := by
    rw [Nat.shiftRight_eq_div_pow, Nat.shiftLeft_eq, e2, e5, e16]
    omega
  have h3 : b >>> 3 < 2 ^ 16 := by
    rw [Nat.shiftRight_eq_div_pow, e3, e16]
    omega
  exact Nat.or_lt_two_pow (Nat.or_lt_two_pow h1 h2) h3

/-- Length of the Rgba to Rgb565 conversion output: two bytes per
complete four-byte input pixel. -/
lemma rgba_to_rgb565_length :
    ∀ l : List Nat, (Frame.rgba_to_rgb565 l).length = 2 * (l.length / 4) := by
  intro l
  induction l using Frame.rgba_to_rgb565.induct with
  | case1 r g b a rest ih =>
      simp only [Frame.rgba_to_rgb565, List.length_cons, ih]
      omega
  | case2 t h =>
      rcases t with _ | ⟨x, _ | ⟨y, _ | ⟨z, _ | ⟨w, rest⟩⟩⟩⟩
      · simp [Frame.rgba_to_rgb565]
      · simp [Frame.rgba_to_rgb565]
      · simp [Frame.rgba_to_rgb565]
      · simp [Frame.rgba_to_rgb565]
      · exact absurd rfl (h x y z w rest)

/-- Bytewise characterization of the Rgba to Rgb565 conversion: pixel i
of the output holds the little-endian bytes of the packed 5-6-5 word of
input pixel i (the alpha byte at input offset 4i+3 is not consulted). -/
lemma rgba_to_rgb565_getD :
    ∀ (l : List Nat) (i : Nat), i < l.length / 4 →
      (Frame.rgba_to_rgb565 l).getD (2 * i) 0 =
        rgb565Word (l.getD (4 * i) 0) (l.getD (4 * i + 1) 0)
          (l.getD (4 * i + 2) 0) % 256 ∧
      (Frame.rgba_to_rgb565 l).getD (2 * i + 1) 0 =
        rgb565Word (l.getD (4 * i) 0) (l.getD (4 * i + 1) 0)
          (l.getD (4 * i + 2) 0) / 256 := by
  intro l
  induction l using Frame.rgba_to_rgb565.induct with
  | case1 r g b a rest ih =>
      intro i hi
      cases i with
      | zero =>
          simp [Frame.rgba_to_rgb565, rgb565Word]
      | succ j =>
          have hj : j < rest.length / 4 := by
            simp only [List.length_cons] at hi
            omega
          have h2 : 2 * (j + 1) = 2 * j + 1 + 1 := by ring
          have h2s : 2 * (j + 1) + 1 = (2 * j + 1) + 1 + 1 := by ring
          have h4 : 4 * (j + 1) = 4 * j + 1 + 1 + 1 + 1 := by ring
          have h4a : 4 * (j + 1) + 1 = (4 * j + 1) + 1 + 1 + 1 + 1 := by ring
          have h4b : 4 * (j + 1) + 2 = (4 * j + 2) + 1 + 1 + 1 + 1 := by ring
          simp only [Frame.rgba_to_rgb565, h2, h2s, h4, h4a, h4b,
            List.getD_cons_succ]
          exact ih j hj
  | case2 t h =>
      intro i hi
      rcases t with _ | ⟨x, _ | ⟨y, _ | ⟨z, _ | ⟨w, rest⟩⟩⟩⟩
      · exact absurd hi (by simp)
      · exact absurd hi (by simp)
      · exact absurd hi (by simp)
      · exact absurd hi (by simp)
      · exact absurd rfl (h x y z w rest)

/-- Claim C6: converting a valid Rgba frame to Rgb565 succeeds, keeps
the dimensions, halves the payload (two bytes per pixel), and stores for
each input pixel the 16-bit word (R >>> 3) <<< 11 ||| (G >>> 2) <<< 5 |||
(B >>> 3) in little-endian byte order, discarding alpha. -/
theorem claim_C6 (f : Frame)
    (hfmt : f.metadata.format = .Rgba)
    (hlen : f.data.length = f.metadata.width * f.metadata.height * 4)
    (hbytes : ∀ x ∈ f.data, x < 256) :
    ∃ g : Frame,
      f.convert .Rgb565 = .ok g ∧
      g.metadata.width = f.metadata.width ∧
      g.metadata.height = f.metadata.height ∧
      g.metadata.format = .Rgb565 ∧
      g.data.length = 2 * (f.data.length / 4) ∧
      ∀ i, i < f.data.length / 4 →
        rgb565Word (f.data.getD (4 * i) 0) (f.data.getD (4 * i + 1) 0)
            (f.data.getD (4 * i + 2) 0) < 2 ^ 16 ∧
        g.data.getD (2 * i) 0 =
          rgb565Word (f.data.getD (4 * i) 0) (f.data.getD (4 * i + 1) 0)
            (f.data.getD (4 * i + 2) 0) % 256 ∧
        g.data.getD (2 * i + 1) 0 =
          rgb565Word (f.data.getD (4 * i) 0) (f.data.getD (4 * i + 1) 0)
            (f.data.getD (4 * i + 2) 0) / 256 := by
  refine ⟨⟨{ f.metadata with format := .Rgb565 }, Frame.rgba_to_rgb565 f.data⟩,
    ?_, rfl, rfl, rfl, ?_, ?_⟩
  · have hlen2 : (Frame.rgba_to_rgb565 f.data).length =
        f.metadata.width * f.metadata.height * 2 := by
      rw [rgba_to_rgb565_length, hlen,
        Nat.mul_div_cancel _ (by norm_num : (0 : Nat) < 4)]
      ring
    simp [Frame.convert, hfmt, Frame.new, Frame.expected_size,
      FrameFormat.bytes_per_pixel, hlen2]
  · exact rgba_to_rgb565_length f.data
  · intro i hi
    refine ⟨?_, rgba_to_rgb565_getD f.data i hi⟩
    exact rgb565Word_lt _ _ _
      (getD_lt_of_forall f.data _ 0 hbytes (by norm_num))
      (getD_lt_of_forall f.data _ 0 hbytes (by norm_num))
      (getD_lt_of_forall f.data _ 0 hbytes (by norm_num))

/-- Witness for claim C6 at the 2x2 all-255 Rgba frame, together with
the concrete conversion result: an 8-byte payload of all 255, so every
little-endian 16-bit word is 0xFFFF. -/
theorem claim_C6_witness :
    (whiteRgba.metadata.format = .Rgba ∧
      whiteRgba.data.length =
        whiteRgba.metadata.width * whiteRgba.metadata.height * 4 ∧
      (∀ x ∈ whiteRgba.data, x < 256)) ∧
    (∃ g : Frame,
      whiteRgba.convert .Rgb565 = .ok g ∧
      g.metadata.width = whiteRgba.metadata.width ∧
      g.metadata.height = whiteRgba.metadata.height ∧
      g.metadata.format = .Rgb565 ∧
      g.data.length = 2 * (whiteRgba.data.length / 4) ∧
      ∀ i, i < whiteRgba.data.length / 4 →
        rgb565Word (whiteRgba.data.getD (4 * i) 0)
            (whiteRgba.data.getD (4 * i + 1) 0)
            (whiteRgba.data.getD (4 * i + 2) 0) < 2 ^ 16 ∧
        g.data.getD (2 * i) 0 =
          rgb565Word (whiteRgba.data.getD (4 * i) 0)
            (whiteRgba.data.getD (4 * i + 1) 0)
            (whiteRgba.data.getD (4 * i + 2) 0) % 256 ∧
        g.data.getD (2 * i + 1) 0 =
          rgb565Word (whiteRgba.data.getD (4 * i) 0)
            (whiteRgba.data.getD (4 * i + 1) 0)
            (whiteRgba.data.getD (4 * i + 2) 0) / 256) ∧
    whiteRgba.convert .Rgb565 =
      .ok ⟨⟨0, 0, 2, 2, .Rgb565, true⟩, List.replicate 8 255⟩ :=
  ⟨⟨rfl, by decide, by decide⟩,
   claim_C6 whiteRgba rfl (by decide) (by decide),
   by rfl⟩

/-- Widening of a 5-bit field to 8 bits, as the spec words it. -/
def widen5 (v : Nat) : Nat := (v <<< 3) ||| (v >>> 2)

/-- Widening of a 6-bit field to 8 bits, as the spec words it. -/
def widen6 (v : Nat) : Nat := (v <<< 2) ||| (v >>> 4)

/-- The red field of a packed 5-6-5 word. -/
def field565r (v : Nat) : Nat := (v >>> 11) &&& 0x1F

/-- The green field of a packed 5-6-5 word. -/
def field565g (v : Nat) : Nat := (v >>> 5) &&& 0x3F

/-- The blue field of a packed 5-6-5 word. -/
def field565b (v : Nat) : Nat := v &&& 0x1F

/-- A widened 5-bit field is a byte. -/
lemma widen5_lt (x : Nat) (hx : x < 32) : widen5 x < 256 := by
  unfold widen5
  have e8 : (2 : Nat) ^ 8 = 256 := by norm_num
  have h1 : x <<< 3 < 2 ^ 8 := by rw [Nat.shiftLeft_eq, e8]; norm_num; omega
  have h2 : x >>> 2 < 2 ^ 8 := by rw [Nat.shiftRight_eq_div_pow, e8]; omega
  have := Nat.or_lt_two_pow h1 h2
  rwa [e8] at this

/-- A widened 6-bit field is a byte. -/
lemma widen6_lt (x : Nat) (hx : x < 64) : widen6 x < 256 := by
  unfold widen6
  have e8 : (2 : Nat) ^ 8 = 256 := by norm_num
  have h1 : x <<< 2 < 2 ^ 8 := by rw [Nat.shiftLeft_eq, e8]; norm_num; omega
  have h2 : x >>> 4 < 2 ^ 8 := by rw [Nat.shiftRight_eq_div_pow, e8]; omega
  have := Nat.or_lt_two_pow h1 h2
  rwa [e8] at this

/-- The extracted 5-bit fields are below 32, the 6-bit field below 64. -/
lemma field565_bounds (v : Nat) :
    field565r v < 32 ∧ field565g v < 64 ∧ field565b v < 32 :=
  ⟨Nat.lt_of_le_of_lt Nat.and_le_right (by norm_num),
   Nat.lt_of_le_of_lt Nat.and_le_right (by norm_num),
   Nat.lt_of_le_of_lt Nat.and_le_right (by norm_num)⟩

/-- Length of the Rgb565 to Rgba conversion output: four bytes per
complete two-byte input word. -/
lemma rgb565_to_rgba_length :
    ∀ l : List Nat, (Frame.rgb565_to_rgba l).length = 4 * (l.length / 2) := by
  intro l
  induction l using Frame.rgb565_to_rgba.induct with
  | case1 b0 b1 rest ih =>
      simp only [Frame.rgb565_to_rgba, List.length_cons, ih]
      omega
  | case2 t h =>
      rcases t with _ | ⟨x, _ | ⟨y, rest⟩⟩
      · simp [Frame.rgb565_to_rgba]
      · simp [Frame.rgb565_to_rgba]
      · exact absurd rfl (h x y rest)

/-- Bytewise characterization of the Rgb565 to Rgba conversion: output
pixel i is the widened 5/6/5 fields of the little-endian word of input
bytes 2i and 2i+1, followed by an alpha byte of exactly 255. -/
lemma rgb565_to_rgba_getD :
    ∀ (l : List Nat) (i : Nat), i < l.length / 2 →
      (Frame.rgb565_to_rgba l).getD (4 * i) 0 =
        widen5 (field565r (l.getD (2 * i) 0 + 256 * l.getD (2 * i + 1) 0)) ∧
      (Frame.rgb565_to_rgba l).getD (4 * i + 1) 0 =
        widen6 (field565g (l.getD (2 * i) 0 + 256 * l.getD (2 * i + 1) 0)) ∧
      (Frame.rgb565_to_rgba l).getD (4 * i + 2) 0 =
        widen5 (field565b (l.getD (2 * i) 0 + 256 * l.getD (2 * i + 1) 0)) ∧
      (Frame.rgb565_to_rgba l).getD (4 * i + 3) 0 = 255 := by
  intro l
  induction l using Frame.rgb565_to_rgba.induct with
  | case1 b0 b1 rest ih =>
      intro i hi
      cases i with
      | zero =>
          simp [Frame.rgb565_to_rgba, widen5, widen6, field565r, field565g,
            field565b]
      | succ j =>
          have hj : j < rest.length / 2 := by
            simp only [List.length_cons] at hi
            omega
          have h2 : 2 * (j + 1) = 2 * j + 1 + 1 := by ring
          have h2s : 2 * (j + 1) + 1 = (2 * j + 1) + 1 + 1 := by ring
          have h4 : 4 * (j + 1) = 4 * j + 1 + 1 + 1 + 1 := by ring
          have h4a : 4 * (j + 1) + 1 = (4 * j + 1) + 1 + 1 + 1 + 1 := by ring
          have h4b : 4 * (j + 1) + 2 = (4 * j + 2) + 1 + 1 + 1 + 1 := by ring
          have h4c : 4 * (j + 1) + 3 = (4 * j + 3) + 1 + 1 + 1 + 1 := by ring
          simp only [Frame.rgb565_to_rgba, h2, h2s, h4, h4a, h4b, h4c,
            List.getD_cons_succ]
          exact ih j hj
  | case2 t h =>
      intro i hi
      rcases t with _ | ⟨x, _ | ⟨y, rest⟩⟩
      · exact absurd hi (by simp)
      · exact absurd hi (by simp)
      · exact absurd rfl (h x y rest)

/-- Claim C7: converting a valid Rgb565 frame to Rgba succeeds, keeps
the dimensions, doubles the payload to four bytes per pixel, unpacks
each little-endian 16-bit word into its 5/6/5 fields, widens them as
(v <<< 3) ||| (v >>> 2) for 5-bit fields and (v <<< 2) ||| (v >>> 4)
for the 6-bit field (all results are bytes), and sets the alpha byte of
every output pixel to exactly 255. -/
theorem claim_C7 (f : Frame)
    (hfmt : f.metadata.format = .Rgb565)
    (hlen : f.data.length = f.metadata.width * f.metadata.height * 2)
    (hbytes : ∀ x ∈ f.data, x < 256) :
    ∃ g : Frame,
      f.convert .Rgba = .ok g ∧
      g.metadata.width = f.metadata.width ∧
      g.metadata.height = f.metadata.height ∧
      g.metadata.format = .Rgba ∧
      g.data.length = 4 * (f.data.length / 2) ∧
      ∀ i, i < f.data.length / 2 →
        g.data.getD (4 * i) 0 =
          widen5 (field565r
            (f.data.getD (2 * i) 0 + 256 * f.data.getD (2 * i + 1) 0)) ∧
        g.data.getD (4 * i + 1) 0 =
          widen6 (field565g
            (f.data.getD (2 * i) 0 + 256 * f.data.getD (2 * i + 1) 0)) ∧
        g.data.getD (4 * i + 2) 0 =
          widen5 (field565b
            (f.data.getD (2 * i) 0 + 256 * f.data.getD (2 * i + 1) 0)) ∧
        g.data.getD (4 * i + 3) 0 = 255 ∧
        g.data.getD (4 * i) 0 < 256 ∧
        g.data.getD (4 * i + 1) 0 < 256 ∧
        g.data.getD (4 * i + 2) 0 < 256 := by
  refine ⟨⟨{ f.metadata with format := .Rgba }, Frame.rgb565_to_rgba f.data⟩,
    ?_, rfl, rfl, rfl, ?_, ?_⟩
  · have hlen2 : (Frame.rgb565_to_rgba f.data).length =
        f.metadata.width * f.metadata.height * 4 := by
      rw [rgb565_to_rgba_length, hlen,
        Nat.mul_div_cancel _ (by norm_num : (0 : Nat) < 2)]
      ring
    simp [Frame.convert, hfmt, Frame.new, Frame.expected_size,
      FrameFormat.bytes_per_pixel, hlen2]
  · exact rgb565_to_rgba_length f.data
  · intro i hi
    obtain ⟨e0, e1, e2, e3⟩ := rgb565_to_rgba_getD f.data i hi
    obtain ⟨br, bg, bb⟩ := field565_bounds
      (f.data.getD (2 * i) 0 + 256 * f.data.getD (2 * i + 1) 0)
    refine ⟨e0, e1, e2, e3, ?_, ?_, ?_⟩
    · rw [e0]; exact widen5_lt _ br
    · rw [e1]; exact widen6_lt _ bg
    · rw [e2]; exact widen5_lt _ bb

/-- Witness for claim C7 at the 1x1 Rgb565 frame with word 31 (pure blue
field), together with the concrete conversion result 0, 0, 255, 255:
the alpha byte is exactly 255. -/
theorem claim_C7_witness :
    (rgb565Sample.metadata.format = .Rgb565 ∧
      rgb565Sample.data.length =
        rgb565Sample.metadata.width * rgb565Sample.metadata.height * 2 ∧
      (∀ x ∈ rgb565Sample.data, x < 256)) ∧
    (∃ g : Frame,
      rgb565Sample.convert .Rgba = .ok g ∧
      g.metadata.width = rgb565Sample.metadata.width ∧
      g.metadata.height = rgb565Sample.metadata.height ∧
      g.metadata.format = .Rgba ∧
      g.data.length = 4 * (rgb565Sample.data.length / 2) ∧
      ∀ i, i < rgb565Sample.data.length / 2 →
        g.data.getD (4 * i) 0 =
          widen5 (field565r (rgb565Sample.data.getD (2 * i) 0 +
            256 * rgb565Sample.data.getD (2 * i + 1) 0)) ∧
        g.data.getD (4 * i + 1) 0 =
          widen6 (field565g (rgb565Sample.data.getD (2 * i) 0 +
            256 * rgb565Sample.data.getD (2 * i + 1) 0)) ∧
        g.data.getD (4 * i + 2) 0 =
          widen5 (field565b (rgb565Sample.data.getD (2 * i) 0 +
            256 * rgb565Sample.data.getD (2 * i + 1) 0)) ∧
        g.data.getD (4 * i + 3) 0 = 255 ∧
        g.data.getD (4 * i) 0 < 256 ∧
        g.data.getD (4 * i + 1) 0 < 256 ∧
        g.data.getD (4 * i + 2) 0 < 256) ∧
    rgb565Sample.convert .Rgba =
      .ok ⟨⟨0, 0, 1, 1, .Rgba, false⟩, [0, 0, 255, 255]⟩ :=
  ⟨⟨rfl, by decide, by decide⟩,
   claim_C7 rgb565Sample rfl (by decide) (by decide),
   by rfl⟩

/-- Claim C1 (code behavior at the claimed scenario): pushing frames with
sequence numbers 0,1,2,3 into an initially empty capacity-3 FrameBuffer,
the push of frame 2 already reports an eviction, the push of frame 3 also
returns false, len() is 2 (not 3), and the first pop() returns the frame
with sequence 2 (not 1): the code disagrees with the claim (and with the
repository's own test, which expects len() = 3 after three pushes). -/
theorem claim_C1_code_behavior :
    (((((FrameBuffer.new 3).push (seqFrame 0)).1.push (seqFrame 1)).1.push
        (seqFrame 2)).2 = false) ∧
    ((((((FrameBuffer.new 3).push (seqFrame 0)).1.push (seqFrame 1)).1.push
        (seqFrame 2)).1.push (seqFrame 3)).2 = false) ∧
    ((((((FrameBuffer.new 3).push (seqFrame 0)).1.push (seqFrame 1)).1.push
        (seqFrame 2)).1.push (seqFrame 3)).1.len = 2) ∧
    ((((((FrameBuffer.new 3).push (seqFrame 0)).1.push (seqFrame 1)).1.push
        (seqFrame 2)).1.push (seqFrame 3)).1.pop.2 = some (seqFrame 2)) := by
  refine ⟨rfl, rfl, rfl, rfl⟩

/-- Claim C2 (code behavior): pushing into an empty capacity-1
FrameBuffer returns false (reports an eviction), and pushing into a
capacity-3 buffer holding only 2 frames (not full) also returns false:
the code disagrees with the claim that pushes into empty and non-full
buffers succeed. -/
theorem claim_C2_code_behavior :
    (((FrameBuffer.new 1).push (seqFrame 0)).2 = false) ∧
    ((((FrameBuffer.new 3).push (seqFrame 0)).1.push (seqFrame 1)).1.len = 2) ∧
    (((((FrameBuffer.new 3).push (seqFrame 0)).1.push (seqFrame 1)).1.push
        (seqFrame 2)).2 = false) := by
  refine ⟨rfl, rfl, rfl⟩

/-- Claim C8: converting a frame to its own format succeeds and returns
the frame itself (bit-identical payload, unchanged metadata), for every
format including Yuv420 and Compressed. -/
theorem claim_C8 (f : Frame) (t : FrameFormat) (h : f.metadata.format = t) :
    f.convert t = .ok f := by
  simp [Frame.convert, h]

/-- Witness for claim C8 at a Yuv420 frame and a Compressed frame. -/
theorem claim_C8_witness :
    (yuvSample.metadata.format = .Yuv420 ∧
      yuvSample.convert .Yuv420 = .ok yuvSample) ∧
    (compressedSample.metadata.format = .Compressed ∧
      compressedSample.convert .Compressed = .ok compressedSample) :=
  ⟨⟨rfl, claim_C8 yuvSample .Yuv420 rfl⟩,
   ⟨rfl, claim_C8 compressedSample .Compressed rfl⟩⟩

/-- Counterexample to claim C4 as stated: the pair (Yuv420, Yuv420) has
neither of its formats among Rgba and Rgb565, yet Frame.convert succeeds
with an identity copy instead of failing with UnsupportedConversion. -/
theorem claim_C4_counterexample :
    yuvSample.convert .Yuv420 = .ok yuvSample ∧
    yuvSample.convert .Yuv420 ≠
      .error (.UnsupportedConversion .Yuv420 .Yuv420) := by
  constructor
  · rfl
  · intro h
    rw [show yuvSample.convert .Yuv420 = .ok yuvSample from rfl] at h
    exact Except.noConfusion h

/-- Claim C4 (amended): for every pair of distinct formats (from, to)
such that (from, to) is neither (Rgba, Rgb565) nor (Rgb565, Rgba) —
in particular any two distinct formats neither of which is Rgba or
Rgb565 — Frame.convert fails with UnsupportedConversion carrying that
pair. -/
theorem claim_C4 (f : Frame) (t : FrameFormat)
    (hne : f.metadata.format ≠ t)
    (h1 : ¬(f.metadata.format = .Rgba ∧ t = .Rgb565))
    (h2 : ¬(f.metadata.format = .Rgb565 ∧ t = .Rgba)) :
    f.convert t = .error (.UnsupportedConversion f.metadata.format t) := by
  obtain ⟨⟨s, ts, w, h, fmt, k⟩, d⟩ := f
  cases fmt <;> cases t <;> simp_all [Frame.convert]

/-- Witness for claim C4 at the pair (Yuv420, Compressed). -/
theorem claim_C4_witness :
    (yuvSample.metadata.format ≠ .Compressed ∧
      ¬(yuvSample.metadata.format = .Rgba ∧
          FrameFormat.Compressed = .Rgb565) ∧
      ¬(yuvSample.metadata.format = .Rgb565 ∧
          FrameFormat.Compressed = .Rgba)) ∧
    yuvSample.convert .Compressed =
      .error (.UnsupportedConversion .Yuv420 .Compressed) :=
  ⟨⟨by decide, by decide, by decide⟩,
   claim_C4 yuvSample .Compressed (by decide) (by decide) (by decide)⟩

/-- Claim C5: for metadata whose format has a fixed bytes-per-pixel,
Frame.new rejects a payload whose length differs from
width * height * bytesPerPixel with SizeMismatch carrying the expected
and actual lengths, and accepts a payload of exactly that length. -/
theorem claim_C5 (m : FrameMetadata) (data : List Nat) (bpp : Nat)
    (hbpp : m.format.bytes_per_pixel = some bpp) :
    (data.length ≠ m.width * m.height * bpp →
      Frame.new m data =
        .error (.SizeMismatch (m.width * m.height * bpp) data.length)) ∧
    (data.length = m.width * m.height * bpp →
      Frame.new m data = .ok ⟨m, data⟩) := by
  constructor <;> intro hlen <;> simp [Frame.new, Frame.expected_size, hbpp, hlen]

/-- Witness for claim C5: a 2x2 Rgba frame rejects an 8-byte payload with
SizeMismatch expected 16 actual 8, and accepts a 16-byte payload. -/
theorem claim_C5_witness :
    (rgbaMeta22.format.bytes_per_pixel = some 4) ∧
    Frame.new rgbaMeta22 (List.replicate 8 0) =
      .error (.SizeMismatch 16 8) ∧
    Frame.new rgbaMeta22 (List.replicate 16 0) =
      .ok ⟨rgbaMeta22, List.replicate 16 0⟩ :=
  ⟨rfl,
   (claim_C5 rgbaMeta22 (List.replicate 8 0) 4 rfl).1 (by decide),
   (claim_C5 rgbaMeta22 (List.replicate 16 0) 4 rfl).2 (by decide)⟩

/-- Claim C9: dispatching Ping for a registered session sends exactly one
message, a Pong whose timestamp field is the incoming timestamp moved
verbatim and whose server time is the wall clock at response time; the
wall clock (seconds since the Unix epoch times 1000, hence nonnegative)
enters the model as the parameter now. -/
theorem claim_C9 (ts now : ℚ) (hnow : 0 ≤ now) :
    process_sent true now (.Ping ts) = [.Pong ts now] ∧ 0 ≤ now :=
  ⟨rfl, hnow⟩

/-- Witness for claim C9 at timestamp 1234.5 and wall clock 5 ms. -/
theorem claim_C9_witness :
    (0 ≤ (5 : ℚ)) ∧
    (process_sent true 5 (.Ping (1234.5 : ℚ)) = [.Pong (1234.5 : ℚ) 5] ∧
      0 ≤ (5 : ℚ)) :=
  ⟨by norm_num, claim_C9 (1234.5 : ℚ) 5 (by norm_num)⟩

/-- Claim C10: Frame.new never returns InvalidDimensions; when the format
has no fixed bytes-per-pixel (Yuv420, Compressed) every payload is
accepted unchecked; and zero width or height is accepted whenever the
payload length is consistent (an empty payload). -/
theorem claim_C10 (m : FrameMetadata) (data : List Nat) :
    isInvalidDimensionsError (Frame.new m data) = false ∧
    (m.format.bytes_per_pixel = none → Frame.new m data = .ok ⟨m, data⟩) ∧
    ((m.width = 0 ∨ m.height = 0) → data.length = 0 →
      Frame.new m data = .ok ⟨m, data⟩) := by
  refine ⟨?_, ?_, ?_⟩
  · unfold Frame.new
    rcases hb : Frame.expected_size m with _ | expected
    · rfl
    · dsimp only
      split
      · rfl
      · rfl
  · intro hb
    simp [Frame.new, Frame.expected_size, hb]
  · intro hwh hlen
    unfold Frame.new Frame.expected_size
    rcases hb : m.format.bytes_per_pixel with _ | bpp
    · rfl
    · have hz : m.width * m.height * bpp = 0 := by
        rcases hwh with h0 | h0 <;> simp [h0]
      simp [hz, hlen]

/-- Witness for claim C10: a Yuv420 frame accepts a 3-byte payload with
no size validation, a Compressed frame accepts a 2-byte payload, and a
zero-width Rgba frame accepts an empty payload; none of these is an
InvalidDimensions error. -/
theorem claim_C10_witness :
    isInvalidDimensionsError (Frame.new yuvMeta79 [1, 2, 3]) = false ∧
    Frame.new yuvMeta79 [1, 2, 3] = .ok ⟨yuvMeta79, [1, 2, 3]⟩ ∧
    Frame.new compressedSample.metadata [9, 9] =
      .ok ⟨compressedSample.metadata, [9, 9]⟩ ∧
    Frame.new zeroRgbaMeta [] = .ok ⟨zeroRgbaMeta, []⟩ :=
  ⟨(claim_C10 yuvMeta79 [1, 2, 3]).1,
   (claim_C10 yuvMeta79 [1, 2, 3]).2.1 rfl,
   (claim_C10 compressedSample.metadata [9, 9]).2.1 rfl,
   (claim_C10 zeroRgbaMeta []).2.2 (Or.inl rfl) rfl⟩

end Qemuweb
